import Mathlib

/-!
Verification development for the `booper` release tool (src/main.rs).

The development shallowly embeds the parts of the program the claims are
about:

* the semantic-version value type together with parsing, rendering,
  comparison and equality as provided by the `semver` crate the program
  uses (`Version` derives `PartialEq`, so equality is field-wise and
  includes build metadata; `Ord` compares build metadata as a final
  tiebreaker);
* `VersionIncrement::increment`;
* the two regular expressions the program compiles (the "precise"
  assignment pattern and the "loose" word-boundary pattern) as
  deterministic scanners over lists of characters, together with the
  `Regex::replace_all` sweep used by `ToVersion::update_files`;
* `Cli::find_current_version`, `all_equal`, `FileKind`;
* the `Cli::boop` pipeline as a function from an explicit environment
  (project files, git state, confirmation answer, external-tool results)
  to an outcome, the final file contents, and the trace of invoked git
  mutations.

File contents are `List Char` (the program reads whole files as UTF-8
strings); external effects (git queries, the confirmation prompt, `cargo
check`) are fields of the environment.  Rust `u64` arithmetic is `Nat`
with an explicit `% 2 ^ 64` where the program adds.  A Rust panic
(`unwrap` failure) is a distinct outcome from the diagnostic
`eprintln` + `Err(())` path.
-/

namespace Booper

/-- Modulus of Rust `u64` arithmetic. -/
def U64 : Nat := 2 ^ 64

/-- Semantic version value, mirroring `semver::Version`: the `pre` and
`build` fields hold the raw prerelease / build-metadata text (empty list =
absent), exactly as the crate stores them as strings. -/
structure SemVersion where
  major : Nat
  minor : Nat
  patch : Nat
  pre : List Char
  build : List Char
deriving DecidableEq

/-- Field-wise equality, as derived by `#[derive(PartialEq)]` on
`semver::Version`: all five fields participate, including `build`. -/
def versionEq (a b : SemVersion) : Bool :=
  decide (a.major = b.major) && decide (a.minor = b.minor) &&
    decide (a.patch = b.patch) && decide (a.pre = b.pre) &&
    decide (a.build = b.build)

/-- Sequential composition of comparisons (first non-equal answer wins). -/
def ordThen (a b : Ordering) : Ordering :=
  match a with
  | .eq => b
  | o => o

/-- Three-way comparison on `Nat`. -/
def natCmp (a b : Nat) : Ordering :=
  if a < b then .lt else if b < a then .gt else .eq

/-- Three-way comparison on characters by scalar value (ASCII byte order
for the ASCII data the program handles). -/
def charCmp (a b : Char) : Ordering :=
  natCmp a.toNat b.toNat

/-- Lexicographic comparison of raw character strings (`str::cmp`). -/
def strCmpL : List Char → List Char → Ordering
  | [], [] => .eq
  | [], _ :: _ => .lt
  | _ :: _, [] => .gt
  | a :: as', b :: bs => ordThen (charCmp a b) (strCmpL as' bs)

/-- The `str::split` on `'.'` used by the crate when comparing dot-separated
identifier sequences; the empty string splits into one empty identifier. -/
def splitOnDot : List Char → List (List Char)
  | [] => [[]]
  | c :: cs =>
    let r := splitOnDot cs
    if c = '.' then [] :: r
    else
      match r with
      | [] => [[c]]
      | h :: t => (c :: h) :: t

/-- Comparison of a single prerelease / build identifier, following the
`semver` crate: purely numeric identifiers sort below alphanumeric ones and
compare numerically (length first, then lexicographically, which agrees
with numeric order for digit strings); otherwise raw string order. -/
def identCmp (x y : List Char) : Ordering :=
  if x.all Char.isDigit then
    if y.all Char.isDigit then ordThen (natCmp x.length y.length) (strCmpL x y)
    else .lt
  else if y.all Char.isDigit then .gt
  else strCmpL x y

/-- Identifier-sequence comparison: pairwise, a missing identifier sorts
first. -/
def identsCmp : List (List Char) → List (List Char) → Ordering
  | [], [] => .eq
  | [], _ :: _ => .lt
  | _ :: _, [] => .gt
  | x :: xs, y :: ys => ordThen (identCmp x y) (identsCmp xs ys)

/-- `Ord` on `semver::Prerelease`: absence of a prerelease sorts above any
prerelease; two non-empty prereleases compare identifier-wise. -/
def preCmp (p q : List Char) : Ordering :=
  if p = [] then (if q = [] then .eq else .gt)
  else if q = [] then .lt
  else identsCmp (splitOnDot p) (splitOnDot q)

/-- `Ord` on `semver::BuildMetadata`: identifier-wise comparison of the raw
text. -/
def buildCmp (p q : List Char) : Ordering :=
  identsCmp (splitOnDot p) (splitOnDot q)

/-- The total order of `semver::Version`: major, minor, patch, prerelease,
and finally build metadata as a tiebreaker (the crate's `Ord` must be
consistent with its derived `Eq`, so build metadata participates). -/
def versionCmp (a b : SemVersion) : Ordering :=
  ordThen (natCmp a.major b.major)
    (ordThen (natCmp a.minor b.minor)
      (ordThen (natCmp a.patch b.patch)
        (ordThen (preCmp a.pre b.pre) (buildCmp a.build b.build))))

/-- `a < b` in the program's version order. -/
def versionLt (a b : SemVersion) : Bool :=
  versionCmp a b == Ordering.lt

/-- Decimal digits of a `Nat` (rendering of the numeric components). -/
def natDigits (n : Nat) : List Char :=
  Nat.toDigits 10 n

/-- `Display` for `semver::Version`:
`MAJOR.MINOR.PATCH[-PRERELEASE][+BUILD]`. -/
def renderVersion (v : SemVersion) : List Char :=
  natDigits v.major ++ '.' :: natDigits v.minor ++ '.' :: natDigits v.patch
    ++ (if v.pre = [] then [] else '-' :: v.pre)
    ++ (if v.build = [] then [] else '+' :: v.build)

/-- Value of a digit string. -/
def digitsToNat (ds : List Char) : Nat :=
  ds.foldl (fun a c => a * 10 + (c.toNat - 48)) 0

/-- Strict numeric identifier of the crate's parser: a non-empty digit run
with no leading zero (unless it is exactly `0`) whose value fits in `u64`.
Returns the value and the unconsumed rest. -/
def parseNumericId (s : List Char) : Option (Nat × List Char) :=
  let ds := s.takeWhile Char.isDigit
  let rest := s.dropWhile Char.isDigit
  match ds with
  | [] => none
  | d :: ds' =>
    if d = '0' ∧ ds' ≠ [] then none
    else
      let n := digitsToNat (d :: ds')
      if n < U64 then some (n, rest) else none

/-- Character allowed inside a prerelease or build identifier. -/
def identChar (c : Char) : Bool :=
  c.isDigit || c.isAlpha || c = '-'

/-- Valid prerelease identifier: non-empty, identifier characters only,
and a purely numeric identifier must not have a leading zero. -/
def validPreIdent (x : List Char) : Bool :=
  match x with
  | [] => false
  | d :: ds =>
    (d :: ds).all identChar &&
      (if (d :: ds).all Char.isDigit then !(d = '0' && ds ≠ []) else true)

/-- Valid build identifier: non-empty, identifier characters only (leading
zeros are allowed in build metadata). -/
def validBuildIdent (x : List Char) : Bool :=
  match x with
  | [] => false
  | _ :: _ => x.all identChar

/-- Parse the optional `+BUILD` tail (already past the `+`). -/
def parseBuildTail (mj mi pa : Nat) (pre : List Char) (b : List Char) :
    Option SemVersion :=
  if (splitOnDot b).all validBuildIdent then some ⟨mj, mi, pa, pre, b⟩
  else none

/-- Strict `semver::Version::parse` of `MAJOR.MINOR.PATCH[-PRE][+BUILD]`;
`none` is the crate's parse error (which the program turns into a panic
through `unwrap`). -/
def parseVersion (s : List Char) : Option SemVersion :=
  match parseNumericId s with
  | none => none
  | some (mj, r1) =>
    match r1 with
    | '.' :: r2 =>
      match parseNumericId r2 with
      | none => none
      | some (mi, r3) =>
        match r3 with
        | '.' :: r4 =>
          match parseNumericId r4 with
          | none => none
          | some (pa, r5) =>
            match r5 with
            | [] => some ⟨mj, mi, pa, [], []⟩
            | '-' :: r6 =>
              let preTxt := r6.takeWhile (fun c => c ≠ '+')
              let r7 := r6.dropWhile (fun c => c ≠ '+')
              if (splitOnDot preTxt).all validPreIdent then
                match r7 with
                | [] => some ⟨mj, mi, pa, preTxt, []⟩
                | '+' :: b => parseBuildTail mj mi pa preTxt b
                | _ => none
              else none
            | '+' :: b => parseBuildTail mj mi pa [] b
            | _ => none
        | _ => none
    | _ => none

/-- The closed set of increment strategies (`VersionIncrement`). -/
inductive VersionIncrement where
  | auto
  | patch
  | minor
  | major
  | strip
  | preRelease
  | exact (v : SemVersion)
deriving DecidableEq

/-- `VersionIncrement::increment`.  Rust struct-update syntax
`Version { patch: current.patch + 1, ..current.clone() }` keeps every
field it does not mention, so `patch` / `minor` / `major` preserve the
`pre` and `build` fields of the current version.  `auto` delegates to
`patch` when the current version has no prerelease and to `strip`
otherwise (the delegated bodies are inlined here).  The `+ 1` is `u64`
addition of the release binary, hence the `% U64`. -/
def increment (i : VersionIncrement) (v : SemVersion) : SemVersion :=
  match i with
  | .auto =>
    if v.pre = [] then ⟨v.major, v.minor, (v.patch + 1) % U64, v.pre, v.build⟩
    else ⟨v.major, v.minor, v.patch, [], v.build⟩
  | .patch => ⟨v.major, v.minor, (v.patch + 1) % U64, v.pre, v.build⟩
  | .minor => ⟨v.major, (v.minor + 1) % U64, 0, v.pre, v.build⟩
  | .major => ⟨(v.major + 1) % U64, 0, 0, v.pre, v.build⟩
  | .strip => ⟨v.major, v.minor, v.patch, [], v.build⟩
  | .preRelease => ⟨v.major, v.minor, v.patch, ['p', 'r', 'e'], v.build⟩
  | .exact w => w

/-! ### The compiled patterns

The program compiles three regular expressions:

* `((VERSION|version) ?= ?)"([^"]+)"` — the general extraction pattern of
  `find_current_version` (group 3 is the quoted value);
* `((VERSION|version) ?= ?)"(?<replace>ESC)"` — the precise pattern, with
  `ESC` the regex-escaped literal rendering of the current version;
* `\b(?<replace>ESC)\b` — the loose pattern.

All three are deterministic at any given start position: the two key
alternatives differ in their first character, and each greedy `' ?'` is
followed by a character that can never be a space, so the scanners below
are exact embeddings of the regex crate's leftmost-first semantics. -/

/-- Strip a literal prefix: `some r` with `s = p ++ r`, else `none`. -/
def litPre : List Char → List Char → Option (List Char)
  | [], s => some s
  | _ :: _, [] => none
  | c :: cs, x :: xs => if x = c then litPre cs xs else none

/-- The characters of the upper-case key alternative. -/
def vcapChars : List Char := ['V', 'E', 'R', 'S', 'I', 'O', 'N']

/-- The characters of the lower-case key alternative. -/
def vlowChars : List Char := ['v', 'e', 'r', 's', 'i', 'o', 'n']

/-- Match `(VERSION|version)` at the head, first alternative first;
returns the consumed key and the rest. -/
def keySplit (s : List Char) : Option (List Char × List Char) :=
  match litPre vcapChars s with
  | some r => some (vcapChars, r)
  | none =>
    match litPre vlowChars s with
    | some r => some (vlowChars, r)
    | none => none

/-- Match `' ?='` at the head (greedy optional space, then `=`). -/
def spEq : List Char → Option (List Char × List Char)
  | ' ' :: '=' :: r => some ([' ', '='], r)
  | '=' :: r => some (['='], r)
  | _ => none

/-- Match `' ?"'` at the head (greedy optional space, then the opening
quote). -/
def spQuote : List Char → Option (List Char × List Char)
  | ' ' :: '"' :: r => some ([' ', '"'], r)
  | '"' :: r => some (['"'], r)
  | _ => none

/-- Match of the precise pattern anchored at the head of `s` for the
literal current-version text `fv`: on success, the whole matched span and
the rest of the input. -/
def preciseMatchAt (fv : List Char) (s : List Char) :
    Option (List Char × List Char) :=
  match keySplit s with
  | none => none
  | some (k, r1) =>
    match spEq r1 with
    | none => none
    | some (e, r2) =>
      match spQuote r2 with
      | none => none
      | some (q, r3) =>
        match litPre fv r3 with
        | none => none
        | some r4 =>
          match r4 with
          | '"' :: r5 => some (k ++ e ++ q ++ fv ++ ['"'], r5)
          | _ => none

/-- `Regex::is_match` for the precise pattern: a match starts at some
position. -/
def hasPreciseMatch (fv s : List Char) : Bool :=
  (List.range s.length).any fun j => (preciseMatchAt fv (s.drop j)).isSome

/-- Match of the general extraction pattern anchored at the head of `s`,
returning the text captured by group 3 (`[^"]+`, greedy, then the closing
quote). -/
def generalCaptureAt (s : List Char) : Option (List Char) :=
  match keySplit s with
  | none => none
  | some (_, r1) =>
    match spEq r1 with
    | none => none
    | some (_, r2) =>
      match spQuote r2 with
      | none => none
      | some (_, r3) =>
        let val := r3.takeWhile (fun c => !(c == '"'))
        let r4 := r3.dropWhile (fun c => !(c == '"'))
        match val, r4 with
        | _ :: _, '"' :: _ => some val
        | _, _ => none

/-- `Regex::captures`: group 3 of the leftmost match of the general
pattern, scanning positions left to right. -/
def generalFirstCapture : List Char → Option (List Char)
  | [] => none
  | c :: cs =>
    match generalCaptureAt (c :: cs) with
    | some v => some v
    | none => generalFirstCapture cs

/-- Word character of the regex `\b` assertion (ASCII fragment: the
program's data is ASCII). -/
def isWordChar (c : Char) : Bool :=
  c.isAlphanum || c = '_'

/-- Whether the character at index `j` of `s` exists and is a word
character. -/
def wordAt (s : List Char) (j : Nat) : Bool :=
  match s.drop j with
  | [] => false
  | c :: _ => isWordChar c

/-- Whether the character just before index `j` exists and is a word
character. -/
def prevWordAt (s : List Char) (j : Nat) : Bool :=
  if j = 0 then false else wordAt s (j - 1)

/-- The loose pattern `\b fv \b` matches at position `j` of `s`: the
literal `fv` occurs there and both ends sit on a word boundary. -/
def looseMatchAtPos (fv s : List Char) (j : Nat) : Bool :=
  (litPre fv (s.drop j)).isSome
    && (prevWordAt s j != wordAt s j)
    && (wordAt s (j + fv.length - 1) != wordAt s (j + fv.length))

/-- `Regex::is_match` for the loose pattern. -/
def hasLooseMatch (fv s : List Char) : Bool :=
  (List.range s.length).any (looseMatchAtPos fv s)

/-! ### `replace_all` sweeps

The replacement closure of `update_files` maps a matched span `m` to
`m.replace(captured, tgt)`, `str::replace` being the left-to-right sweep
replacing every non-overlapping occurrence of the captured text.  The
scanners below recurse structurally on the input, using an explicit
skip counter to step over the remainder of a consumed span. -/

/-- `str::replace` sweep for a non-empty needle `p0 :: pt`: `skip`
characters still belonging to an emitted replacement are consumed without
rescanning. -/
def replGo (p0 : Char) (pt tgt : List Char) : List Char → Nat → List Char
  | [], _ => []
  | _ :: cs, skip + 1 => replGo p0 pt tgt cs skip
  | c :: cs, 0 =>
    if (litPre (p0 :: pt) (c :: cs)).isSome then
      tgt ++ replGo p0 pt tgt cs pt.length
    else c :: replGo p0 pt tgt cs 0

/-- Rust `str::replace pat → tgt` (the degenerate empty pattern never
occurs in the program: patterns are rendered versions). -/
def replaceList (pat tgt s : List Char) : List Char :=
  match pat with
  | [] => s
  | p0 :: pt => replGo p0 pt tgt s 0

/-- `Regex::replace_all` for the precise pattern: scan left to right, and
on a match emit the span with the captured version text replaced, then
resume after the span. -/
def preciseGo (fv tgt : List Char) : List Char → Nat → List Char
  | [], _ => []
  | _ :: cs, skip + 1 => preciseGo fv tgt cs skip
  | c :: cs, 0 =>
    match preciseMatchAt fv (c :: cs) with
    | some (m, _) => replaceList fv tgt m ++ preciseGo fv tgt cs (m.length - 1)
    | none => c :: preciseGo fv tgt cs 0

/-- Whole-content rewrite of a precise (`Cargo.toml`) file. -/
def preciseReplaceAll (fv tgt s : List Char) : List Char :=
  preciseGo fv tgt s 0

/-- `Regex::replace_all` for the loose pattern.  `pw` is whether the
previous character (if any) is a word character; after a replaced span it
is the wordness of the last character of the matched text. -/
def looseGo (f0 : Char) (ft tgt : List Char) :
    List Char → Bool → Nat → List Char
  | [], _, _ => []
  | _ :: cs, pw, skip + 1 => looseGo f0 ft tgt cs pw skip
  | c :: cs, pw, 0 =>
    if (litPre (f0 :: ft) (c :: cs)).isSome
        && (pw != isWordChar c)
        && (isWordChar (ft.getLastD f0)
              != (match (c :: cs).drop (ft.length + 1) with
                  | [] => false
                  | x :: _ => isWordChar x)) then
      replaceList (f0 :: ft) tgt (f0 :: ft)
        ++ looseGo f0 ft tgt cs (isWordChar (ft.getLastD f0)) ft.length
    else c :: looseGo f0 ft tgt cs (isWordChar c) 0

/-- Whole-content rewrite of a loose file. -/
def looseReplaceAll (fv tgt s : List Char) : List Char :=
  match fv with
  | [] => s
  | f0 :: ft => looseGo f0 ft tgt s false 0

/-! ### Decompositions for the substitution theorem

A concrete instance of the precise pattern is determined by the key case
and the two optional spaces; `instChars` renders it around a given quoted
value. -/

/-- Shape of one precise-pattern instance: upper-case key?, space before
`=`?, space after `=`? -/
structure Inst where
  caps : Bool
  sp1 : Bool
  sp2 : Bool
deriving DecidableEq

/-- Key characters of an instance. -/
def keyOf (i : Inst) : List Char :=
  if i.caps then vcapChars else vlowChars

/-- Optional space plus `=` of an instance. -/
def eqOf (i : Inst) : List Char :=
  if i.sp1 then [' ', '='] else ['=']

/-- Optional space plus opening quote of an instance. -/
def qOf (i : Inst) : List Char :=
  if i.sp2 then [' ', '"'] else ['"']

/-- The full text of a precise-pattern instance around the value `val`. -/
def instChars (i : Inst) (val : List Char) : List Char :=
  keyOf i ++ eqOf i ++ qOf i ++ val ++ ['"']

/-- Interleaving of plain text and pattern instances carrying the value
`val`: `buildContent val segs tfin` is
`t₁ ++ inst₁ ++ t₂ ++ inst₂ ++ ... ++ tfin`. -/
def buildContent (val : List Char) : List (List Char × Inst) → List Char → List Char
  | [], tfin => tfin
  | (t, i) :: rest, tfin => t ++ instChars i val ++ buildContent val rest tfin

/-- No precise-pattern match starts inside `t` when `t` is followed by
`tail`. -/
def noMatchWithin (fv t tail : List Char) : Bool :=
  (List.range t.length).all fun j => (preciseMatchAt fv (t.drop j ++ tail)).isNone

/-- The plain-text separators of a decomposition contain no further match
start, so the listed instances are exactly the matches of the content. -/
def safeAll (fv : List Char) : List (List Char × Inst) → List Char → Bool
  | [], tfin =>
    (List.range tfin.length).all fun j => (preciseMatchAt fv (tfin.drop j)).isNone
  | (t, i) :: rest, tfin =>
    noMatchWithin fv t (instChars i fv ++ buildContent fv rest tfin)
      && safeAll fv rest tfin

/-! ### File classification and the version locator -/

/-- `FileKind`. -/
inductive FileKind where
  | precise
  | loose
  | skip
deriving DecidableEq

/-- `FileKind::new`, a pure function of the file name: `Cargo.toml` is
precise, `Cargo.lock` is skipped, everything else is loose. -/
def fileKind (name : String) : FileKind :=
  if name = "Cargo.toml" then .precise
  else if name = "Cargo.lock" then .skip
  else .loose

/-- Contents of the named file, if present (the filesystem is modelled as
an association list of file name to contents). -/
def lookupFile (files : List (String × List Char)) (name : String) :
    Option (List Char) :=
  match files.find? (fun f => f.1 == name) with
  | some f => some f.2
  | none => none

/-- The extraction sweep of `find_current_version`: for each of the two
well-known files that is present, the first captured quoted value of the
general pattern. -/
def extractVersions (files : List (String × List Char)) : List (List Char) :=
  (["Cargo.toml", ".env"] : List String).filterMap fun n =>
    (lookupFile files n).bind generalFirstCapture

/-- `all_equal`: `false` on the empty list, otherwise every element equals
the first. -/
def allEqual (v : List (List Char)) : Bool :=
  match v with
  | [] => false
  | first :: rest => rest.all fun x => decide (x = first)

/-- Result of `find_current_version`: the two diagnostic failures, the
panic of the `unwrap` on a failed parse, or the discovered version. -/
inductive FindRes where
  | errNoVersions
  | errInconsistent
  | panicked
  | found (v : SemVersion)
deriving DecidableEq

/-- `Cli::find_current_version`: assert the extracted list non-empty
(diagnostic `no versions found`), assert all entries textually identical
(diagnostic `no consistent version found`), then `Version::parse(..).unwrap()`
on the first entry. -/
def findCurrentVersion (files : List (String × List Char)) : FindRes :=
  match extractVersions files with
  | [] => .errNoVersions
  | v :: vs =>
    if allEqual (v :: vs) then
      match parseVersion v with
      | none => .panicked
      | some ver => .found ver
    else .errInconsistent

/-! ### The release pipeline -/

/-- The CLI flags the pipeline consumes. -/
structure CliFlags where
  increment : VersionIncrement
  commit : Bool
  tag : Bool
  push : Bool
  force : Bool

/-- Environment of one run: the project files (in the order the ignore
walk yields them), and the answers of every external effect the pipeline
consults.  The four `..Ok` flags are the success of the corresponding git
invocation. -/
structure Env where
  files : List (String × List Char)
  gitClean : Bool
  lastTag : Option (List Char)
  confirmAnswer : Bool
  cargoOk : Bool
  commitOk : Bool
  pushOk : Bool
  tagOk : Bool
  pushTagOk : Bool

/-- A git mutation the program invokes. -/
inductive GitOp where
  | commit (msg : List Char)
  | push
  | tagOp (t : List Char)
  | pushTag (t : List Char)
deriving DecidableEq

/-- How the process ends: `Ok(())`, the diagnostic `Err(())` path, or a
panic. -/
inductive Outcome where
  | ok
  | err
  | panicked
deriving DecidableEq

/-- Result of a run: outcome, final file contents, and the git mutations
that were invoked (in order). -/
structure RunResult where
  outcome : Outcome
  files : List (String × List Char)
  gitTrace : List GitOp
deriving DecidableEq

/-- `last_tag.strip_prefix('v').unwrap_or(last_tag)`. -/
def stripLeadV : List Char → List Char
  | 'v' :: r => r
  | s => s

/-- Does the appropriate pattern for the file's kind match its contents
(`find_files_to_update`, per file)? -/
def fileMatches (fv : List Char) (f : String × List Char) : Bool :=
  match fileKind f.1 with
  | .precise => hasPreciseMatch fv f.2
  | .loose => hasLooseMatch fv f.2
  | .skip => false

/-- Rewrite one file's contents with the pattern of its kind
(`update_files`, per file). -/
def updateContentFor (name : String) (fv tgt c : List Char) : List Char :=
  match fileKind name with
  | .precise => preciseReplaceAll fv tgt c
  | .loose => looseReplaceAll fv tgt c
  | .skip => c

/-- The tag-and-push tail of `git_operations` (after the commit and the
branch push): create the tag, then push it when requested. -/
def gitTagSteps (cli : CliFlags) (env : Env) (tagName : List Char)
    (trace : List GitOp) : Outcome × List GitOp :=
  if cli.tag then
    let tr := trace ++ [GitOp.tagOp tagName]
    if env.tagOk then
      if cli.push then
        let tr2 := tr ++ [GitOp.pushTag tagName]
        if env.pushTagOk then (.ok, tr2) else (.err, tr2)
      else (.ok, tr)
    else (.err, tr)
  else (.ok, trace)

/-- `Cli::git_operations`: derive the tag name from the previous tag's
convention, then either run commit → push → tag → push-tag (each gated on
its flag, each failure fatal), or — without `commit` — report the
tag/push-requires-commit usage error. -/
def gitOperations (cli : CliFlags) (env : Env) (tgtStr : List Char)
    (lastTag : Option (List Char)) : Outcome × List GitOp :=
  let tagName : List Char :=
    match lastTag with
    | some lt =>
      match lt with
      | 'v' :: _ => 'v' :: tgtStr
      | _ => tgtStr
    | none => 'v' :: tgtStr
  if cli.commit then
    let tr := [GitOp.commit ("Version ".data ++ tgtStr)]
    if env.commitOk then
      if cli.push then
        let tr2 := tr ++ [GitOp.push]
        if env.pushOk then gitTagSteps cli env tagName tr2 else (.err, tr2)
      else gitTagSteps cli env tagName tr
    else (.err, tr)
  else if cli.tag then (.err, [])
  else if cli.push then (.err, [])
  else (.ok, [])

/-- The pipeline from the build-metadata assertion on: compute the target
version, plan (read-only match pass), confirm, apply, `cargo check`, then
the git operations. -/
def boopStage2 (cli : CliFlags) (env : Env) (fromV : SemVersion) : RunResult :=
  if fromV.build ≠ [] then ⟨.err, env.files, []⟩
  else
    let tgtV := increment cli.increment fromV
    let fv := renderVersion fromV
    let tgtStr := renderVersion tgtV
    let matching := (env.files.filter (fileMatches fv)).map (·.1)
    if cli.force = false ∧ env.confirmAnswer = false then ⟨.err, env.files, []⟩
    else
      let newFiles := env.files.map fun f =>
        if matching.contains f.1 then (f.1, updateContentFor f.1 fv tgtStr f.2)
        else f
      if env.cargoOk = false then ⟨.err, newFiles, []⟩
      else
        let g := gitOperations cli env tgtStr env.lastTag
        ⟨g.1, newFiles, g.2⟩

/-- The tag-consistency check of `Cli::boop` (short-circuit `&&`: the
previous tag is parsed — and can panic — only when its stripped text is
non-empty and the discovered version has no prerelease). -/
def boopTagCheck (cli : CliFlags) (env : Env) (fromV : SemVersion) : RunResult :=
  match env.lastTag with
  | none => boopStage2 cli env fromV
  | some lt =>
    let st := stripLeadV lt
    if st = [] then boopStage2 cli env fromV
    else if fromV.pre ≠ [] then boopStage2 cli env fromV
    else
      match parseVersion st with
      | none => ⟨.panicked, env.files, []⟩
      | some tv =>
        if versionEq fromV tv then boopStage2 cli env fromV
        else ⟨.err, env.files, []⟩

/-- `Cli::boop`: precondition (clean tree), discovery, tag-consistency
check, then the rest of the pipeline. -/
def boop (cli : CliFlags) (env : Env) : RunResult :=
  if env.gitClean = false then ⟨.err, env.files, []⟩
  else
    match findCurrentVersion env.files with
    | .errNoVersions => ⟨.err, env.files, []⟩
    | .errInconsistent => ⟨.err, env.files, []⟩
    | .panicked => ⟨.panicked, env.files, []⟩
    | .found v => boopTagCheck cli env v

/-! ### Helper lemmas -/

theorem litPre_self (p s : List Char) : litPre p (p ++ s) = some s := by
  induction p with
  | nil => rfl
  | cons c cs ih => simp [litPre, ih]

theorem litPre_some (p : List Char) :
    ∀ s r, litPre p s = some r → s = p ++ r := by
  induction p with
  | nil => intro s r h; simp [litPre] at h; simp [h]
  | cons c cs ih =>
    intro s r h
    cases s with
    | nil => simp [litPre] at h
    | cons x xs =>
      simp only [litPre] at h
      split at h
      · next hx => simpa [hx] using congrArg (x :: ·) (ih xs r h)
      · exact absurd h (by simp)

theorem natCmp_self (a : Nat) : natCmp a a = .eq := by
  simp [natCmp]

theorem natCmp_succ (a : Nat) : natCmp a (a + 1) = .lt := by
  simp [natCmp]

/-! ### Claim C1 -/

/-- C1, counterexample: the claim states that `Patch` clears a non-empty
pre-release (`Patch(1.2.3-pre) = 1.2.4`).  In the code, Rust struct-update
syntax copies the `pre` field, so `Patch(1.2.3-pre) = 1.2.4-pre`. -/
theorem C1_cex :
    parseVersion "1.2.3-pre".data = some ⟨1, 2, 3, ['p', 'r', 'e'], []⟩
      ∧ increment .patch ⟨1, 2, 3, ['p', 'r', 'e'], []⟩ ≠ ⟨1, 2, 4, [], []⟩
      ∧ renderVersion (increment .patch ⟨1, 2, 3, ['p', 'r', 'e'], []⟩)
          = "1.2.4-pre".data := by
  decide

/-- C1 (amended): the `Patch` strategy yields `a.b.(c+1)` with major and
minor unchanged and the pre-release (and build) fields preserved, so
`Patch(1.2.3) = 1.2.4` but `Patch(1.2.3-pre) = 1.2.4-pre`; the pre-release
is cleared only by `Auto` (which routes pre-release versions to
`StripPrerelease`) or `StripPrerelease` itself. -/
theorem C1_amended (v : SemVersion) (h : v.patch + 1 < U64) :
    increment .patch v = ⟨v.major, v.minor, v.patch + 1, v.pre, v.build⟩
      ∧ renderVersion (increment .patch ⟨1, 2, 3, [], []⟩) = "1.2.4".data := by
  refine ⟨?_, by decide⟩
  simp [increment, Nat.mod_eq_of_lt h]

/-- C1, witness for the amended theorem at `1.2.3-pre`. -/
theorem C1_wit :
    (3 : Nat) + 1 < U64
      ∧ increment .patch ⟨1, 2, 3, ['p', 'r', 'e'], []⟩
          = ⟨1, 2, 4, ['p', 'r', 'e'], []⟩ :=
  ⟨by decide, (C1_amended ⟨1, 2, 3, ['p', 'r', 'e'], []⟩ (by decide)).1⟩

/-! ### Claim C3 -/

/-- C3, counterexample: the claim states every strategy except `Exact` and
`StripPrerelease` produces a strictly greater version; but
`Prerelease(1.2.3) = 1.2.3-pre` is strictly *smaller* than `1.2.3` in the
semantic-version order. -/
theorem C3_cex :
    versionLt ⟨1, 2, 3, [], []⟩ (increment .preRelease ⟨1, 2, 3, [], []⟩) = false
      ∧ versionLt (increment .preRelease ⟨1, 2, 3, [], []⟩) ⟨1, 2, 3, [], []⟩
          = true := by
  decide

/-- C3 (amended): for the `Auto`, `Patch`, `Minor` and `Major` strategies
(absent `u64` overflow of the bumped component) the result is strictly
greater than the current version in the program's version order;
`Prerelease`, like `Exact` and `StripPrerelease`, has no such guarantee
(it produces a smaller version whenever the current version has no
pre-release). -/
theorem C3_amended (v : SemVersion) :
    (v.patch + 1 < U64 → versionLt v (increment .patch v) = true)
      ∧ (v.minor + 1 < U64 → versionLt v (increment .minor v) = true)
      ∧ (v.major + 1 < U64 → versionLt v (increment .major v) = true)
      ∧ (v.patch + 1 < U64 → versionLt v (increment .auto v) = true) := by
  refine ⟨?_, ?_, ?_, ?_⟩
  · intro h
    simp only [versionLt, increment, versionCmp, ordThen, natCmp_self,
      Nat.mod_eq_of_lt h, natCmp_succ]
    rfl
  · intro h
    simp only [versionLt, increment, versionCmp, ordThen, natCmp_self,
      Nat.mod_eq_of_lt h, natCmp_succ]
    rfl
  · intro h
    simp only [versionLt, increment, versionCmp, ordThen, natCmp_self,
      Nat.mod_eq_of_lt h, natCmp_succ]
    rfl
  · intro h
    by_cases hp : v.pre = []
    · simp only [versionLt, increment, hp, if_true, versionCmp, ordThen,
        natCmp_self, Nat.mod_eq_of_lt h, natCmp_succ]
      rfl
    · simp only [versionLt, increment, hp, if_false, versionCmp, ordThen,
        natCmp_self, preCmp, if_neg hp]
      rfl

/-- C3, witness for the amended theorem at `2.0.9` and `1.2.3-pre`. -/
theorem C3_wit :
    ((9 : Nat) + 1 < U64
        ∧ versionLt ⟨2, 0, 9, [], []⟩ (increment .patch ⟨2, 0, 9, [], []⟩) = true)
      ∧ versionLt ⟨1, 2, 3, ['p', 'r', 'e'], []⟩
          (increment .auto ⟨1, 2, 3, ['p', 'r', 'e'], []⟩) = true :=
  ⟨⟨by decide, (C3_amended ⟨2, 0, 9, [], []⟩).1 (by decide)⟩,
    (C3_amended ⟨1, 2, 3, ['p', 'r', 'e'], []⟩).2.2.2 (by decide)⟩

/-! ### Claim C6 -/

/-- C6, counterexample: the claim states equality ignores build metadata.
The program's equality is the derived field-wise `PartialEq` of
`semver::Version`, so `1.0.0+a ≠ 1.0.0+b`, the total order breaks the tie
by build metadata, and the tag-consistency check errors out on a project
whose discovered version `1.0.0+abc` differs from the previous tag
`v1.0.0` only in build metadata. -/
theorem C6_cex :
    versionEq ⟨1, 0, 0, [], ['a']⟩ ⟨1, 0, 0, [], ['b']⟩ = false
      ∧ versionCmp ⟨1, 0, 0, [], ['a']⟩ ⟨1, 0, 0, [], ['b']⟩ = .lt
      ∧ boop ⟨.auto, false, false, false, true⟩
          ⟨[("Cargo.toml", "version = \"1.0.0+abc\"".data)], true,
            some "v1.0.0".data, true, true, true, true, true, true⟩
        = ⟨.err, [("Cargo.toml", "version = \"1.0.0+abc\"".data)], []⟩ := by
  decide

/-- C6 (amended): the program's version equality — used by the
tag-consistency check — is field-wise and includes build metadata: two
versions that differ only in their build-metadata component are equal
exactly when those components are textually equal, and the tag-consistency
check accordingly fails for a discovered version differing from the
stripped previous tag only in build metadata. -/
theorem C6_amended (mj mi pa : Nat) (pre b1 b2 : List Char) :
    versionEq ⟨mj, mi, pa, pre, b1⟩ ⟨mj, mi, pa, pre, b2⟩ = decide (b1 = b2) := by
  simp [versionEq]

/-! ### Claims C4 and C5 -/

/-- C4, counterexample: the claim states the key is matched
case-insensitively; but the pattern's key alternation is the two exact
spellings, so `Version = "1.2.3"` yields no extraction at all. -/
theorem C4_cex :
    generalFirstCapture "Version = \"1.2.3\"".data = none := by
  decide

theorem keySplit_inst (i : Inst) (X : List Char) :
    keySplit (keyOf i ++ X) = some (keyOf i, X) := by
  cases hc : i.caps
  · have hnone : litPre vcapChars (vlowChars ++ X) = none := by
      simp [vcapChars, vlowChars, litPre]
    simp [keyOf, hc, keySplit, hnone, litPre_self]
  · simp [keyOf, hc, keySplit, litPre_self]

theorem spEq_inst (i : Inst) (X : List Char) :
    spEq (eqOf i ++ X) = some (eqOf i, X) := by
  cases hs : i.sp1 <;> simp [eqOf, hs, spEq]

theorem spQuote_inst (i : Inst) (X : List Char) :
    spQuote (qOf i ++ X) = some (qOf i, X) := by
  cases hs : i.sp2 <;> simp [qOf, hs, spQuote]

theorem takeWhile_app_all (p : Char → Bool) (l : List Char) (x : Char)
    (r : List Char) (hl : l.all p = true) (hx : p x = false) :
    (l ++ x :: r).takeWhile p = l ∧ (l ++ x :: r).dropWhile p = x :: r := by
  induction l with
  | nil => simp [List.takeWhile, List.dropWhile, hx]
  | cons c cs ih =>
    simp only [List.all_cons, Bool.and_eq_true] at hl
    obtain ⟨hc, hcs⟩ := hl
    obtain ⟨ih1, ih2⟩ := ih hcs
    constructor
    · simpa [List.takeWhile, hc] using ih1
    · simpa [List.dropWhile, hc] using ih2

theorem generalCaptureAt_inst (i : Inst) (val rest : List Char)
    (h1 : val ≠ [])
    (h2 : val.all (fun c => !(c == '"')) = true) :
    generalCaptureAt (instChars i val ++ rest) = some val := by
  obtain ⟨ht, hd⟩ :=
    takeWhile_app_all (fun c => !(c == '"')) val '"' rest h2 (by simp)
  cases val with
  | nil => exact absurd rfl h1
  | cons v0 vt =>
    simp only [List.cons_append] at ht hd
    simp only [instChars, List.append_assoc, List.cons_append]
    simp [generalCaptureAt, keySplit_inst, spEq_inst, spQuote_inst, ht, hd]

theorem generalFirstCapture_head (s v : List Char)
    (h : generalCaptureAt s = some v) : generalFirstCapture s = some v := by
  cases s with
  | nil =>
    have : generalCaptureAt ([] : List Char) = none := rfl
    rw [this] at h
    exact absurd h (by simp)
  | cons c cs => simp [generalFirstCapture, h]

/-- C4 (amended): the extraction pattern matches the assignment key only in
the two exact spellings `version` and `VERSION` (not arbitrary mixed case);
for either spelling, with an optional single space on each side of the `=`
and a non-empty quoted value, the locator extracts exactly the quoted
value. -/
theorem C4_amended (i : Inst) (val rest : List Char) (h1 : val ≠ [])
    (h2 : val.all (fun c => !(c == '"')) = true) :
    generalFirstCapture (instChars i val ++ rest) = some val :=
  generalFirstCapture_head _ _ (generalCaptureAt_inst i val rest h1 h2)

/-- C4, witness: the amended theorem applied to `VERSION = "1.2.3"` with
trailing text. -/
theorem C4_wit :
    ("1.2.3".data ≠ []
        ∧ "1.2.3".data.all (fun c => !(c == '"')) = true)
      ∧ generalFirstCapture
          (instChars ⟨true, true, true⟩ "1.2.3".data ++ " tail".data)
        = some "1.2.3".data :=
  ⟨⟨by decide, by decide⟩,
    C4_amended ⟨true, true, true⟩ "1.2.3".data " tail".data (by decide) (by decide)⟩

/-- C5: the locator fails with the `no versions found` diagnostic when the
scan of the two well-known files yields no match, fails with the
`no consistent version found` diagnostic when the extracted version
strings are not all textually identical, and succeeds with the parsed
common version when they are identical (and parse). -/
theorem C5_taxonomy (files : List (String × List Char)) :
    (extractVersions files = [] → findCurrentVersion files = .errNoVersions)
      ∧ (∀ v vs, extractVersions files = v :: vs → allEqual (v :: vs) = false →
          findCurrentVersion files = .errInconsistent)
      ∧ (∀ v vs ver, extractVersions files = v :: vs →
          allEqual (v :: vs) = true → parseVersion v = some ver →
          findCurrentVersion files = .found ver) := by
  refine ⟨?_, ?_, ?_⟩
  · intro h
    simp [findCurrentVersion, h]
  · intro v vs h hne
    simp [findCurrentVersion, h, hne]
  · intro v vs ver h heq hp
    simp [findCurrentVersion, h, heq, hp]

/-- C5, witness: the three branches of the taxonomy at concrete file
sets — no files, textually differing versions (`1.0.0` vs `1.0.1`), and
two files agreeing on `1.0.0`. -/
theorem C5_wit :
    findCurrentVersion [] = .errNoVersions
      ∧ findCurrentVersion
          [("Cargo.toml", "version = \"1.0.0\"".data),
            (".env", "VERSION = \"1.0.1\"".data)] = .errInconsistent
      ∧ findCurrentVersion
          [("Cargo.toml", "version = \"1.0.0\"".data),
            (".env", "VERSION=\"1.0.0\"".data)] = .found ⟨1, 0, 0, [], []⟩ :=
  ⟨(C5_taxonomy []).1 (by decide),
    (C5_taxonomy _).2.1 "1.0.0".data ["1.0.1".data] (by decide) (by decide),
    (C5_taxonomy _).2.2 "1.0.0".data ["1.0.0".data] ⟨1, 0, 0, [], []⟩
      (by decide) (by decide) (by decide)⟩

theorem gitOperations_no_commit (cli : CliFlags) (env : Env) (t : List Char)
    (lt : Option (List Char)) (h : cli.commit = false)
    (h1 : cli.tag = true ∨ cli.push = true) :
    gitOperations cli env t lt = (.err, []) := by
  rcases h1 with ht | hp
  · simp [gitOperations, h, ht]
  · by_cases ht : cli.tag = true
    · simp [gitOperations, h, ht]
    · simp [gitOperations, h, ht, hp]

theorem boopStage2_no_commit (cli : CliFlags) (env : Env) (v : SemVersion)
    (h2 : cli.commit = false) (h1 : cli.tag = true ∨ cli.push = true) :
    (boopStage2 cli env v).gitTrace = []
      ∧ (boopStage2 cli env v).outcome ≠ .ok := by
  have hg := gitOperations_no_commit cli env
    (renderVersion (increment cli.increment v)) env.lastTag h2 h1
  by_cases hb : v.build = []
  · by_cases hcf : cli.force = false ∧ env.confirmAnswer = false
    · simp [boopStage2, hb, hcf]
    · by_cases hca : env.cargoOk = false
      · simp [boopStage2, hb, hcf, hca]
      · simp [boopStage2, hb, hcf, hca, hg]
  · simp [boopStage2, hb]

theorem boopStage2_decline (cli : CliFlags) (env : Env) (v : SemVersion)
    (hf : cli.force = false) (hc : env.confirmAnswer = false) :
    boopStage2 cli env v = ⟨.err, env.files, []⟩ := by
  by_cases hb : v.build = []
  · simp [boopStage2, hb, hf, hc]
  · simp [boopStage2, hb]

theorem boopTagCheck_cases (cli : CliFlags) (env : Env) (v : SemVersion)
    (P : RunResult → Prop)
    (h1 : P (boopStage2 cli env v))
    (h2 : P ⟨.err, env.files, []⟩)
    (h3 : P ⟨.panicked, env.files, []⟩) :
    P (boopTagCheck cli env v) := by
  unfold boopTagCheck
  cases hlt : env.lastTag with
  | none => exact h1
  | some lt =>
    dsimp only
    split
    · exact h1
    · split
      · exact h1
      · split
        · exact h3
        · split
          · exact h1
          · exact h2

theorem boop_cases (cli : CliFlags) (env : Env) (P : RunResult → Prop)
    (h1 : ∀ v, findCurrentVersion env.files = .found v →
      P (boopTagCheck cli env v))
    (h2 : P ⟨.err, env.files, []⟩)
    (h3 : P ⟨.panicked, env.files, []⟩) :
    P (boop cli env) := by
  unfold boop
  split
  · exact h2
  · cases hf : findCurrentVersion env.files with
    | errNoVersions => exact h2
    | errInconsistent => exact h2
    | panicked => exact h3
    | found v => exact h1 v hf

/-! ### Claim C2 -/

/-- C2, counterexample: the claim states that requesting `tag` without
`commit` fails before any file is rewritten.  In the code
`git_operations` runs last, so on a run with `-t` but no `-c` the project
file has already been rewritten to the new version when the usage error is
reported (while indeed no git mutation was invoked). -/
theorem C2_cex :
    boop ⟨.auto, false, true, false, true⟩
        ⟨[("Cargo.toml", "version = \"1.0.0\"".data)], true, none, true, true,
          true, true, true, true⟩
      = ⟨.err, [("Cargo.toml", "version = \"1.0.1\"".data)], []⟩
      ∧ ("version = \"1.0.1\"".data ≠ "version = \"1.0.0\"".data) := by
  decide

/-- C2 (amended): requesting `tag` or `push` without `commit` always ends
the run with a usage error (never success) and invokes no version-control
mutation; the error is reported only at the integrate step, however, after
the plan, confirmation, apply, and build-check stages have run, so project
files can already have been rewritten by the time it is raised. -/
theorem C2_amended (cli : CliFlags) (env : Env)
    (h1 : cli.tag = true ∨ cli.push = true) (h2 : cli.commit = false) :
    (boop cli env).gitTrace = [] ∧ (boop cli env).outcome ≠ .ok := by
  refine boop_cases cli env
    (fun r => r.gitTrace = [] ∧ r.outcome ≠ .ok) ?_
    ⟨rfl, fun h => Outcome.noConfusion h⟩
    ⟨rfl, fun h => Outcome.noConfusion h⟩
  intro v _
  exact boopTagCheck_cases cli env v
    (fun r => r.gitTrace = [] ∧ r.outcome ≠ .ok)
    (boopStage2_no_commit cli env v h2 h1)
    ⟨rfl, fun h => Outcome.noConfusion h⟩
    ⟨rfl, fun h => Outcome.noConfusion h⟩

/-- C2, witness: the amended theorem on the counterexample run (tag
requested, commit not). -/
theorem C2_wit :
    ((true : Bool) = true ∨ (false : Bool) = true)
      ∧ (boop ⟨.auto, false, true, false, true⟩
            ⟨[("Cargo.toml", "version = \"1.0.0\"".data)], true, none, true,
              true, true, true, true, true⟩).gitTrace = []
      ∧ (boop ⟨.auto, false, true, false, true⟩
            ⟨[("Cargo.toml", "version = \"1.0.0\"".data)], true, none, true,
              true, true, true, true, true⟩).outcome ≠ .ok :=
  ⟨Or.inl rfl,
    (C2_amended ⟨.auto, false, true, false, true⟩
        ⟨[("Cargo.toml", "version = \"1.0.0\"".data)], true, none, true, true,
          true, true, true, true⟩ (Or.inl rfl) rfl).1,
    (C2_amended ⟨.auto, false, true, false, true⟩
        ⟨[("Cargo.toml", "version = \"1.0.0\"".data)], true, none, true, true,
          true, true, true, true⟩ (Or.inl rfl) rfl).2⟩

/-! ### Claim C9 -/

/-- C9: when confirmation skipping was not requested and the operator
declines the prompt, the run aborts (never succeeds), every file keeps its
original contents, and no git mutation is invoked. -/
theorem C9_decline (cli : CliFlags) (env : Env) (hf : cli.force = false)
    (hc : env.confirmAnswer = false) :
    (boop cli env).files = env.files ∧ (boop cli env).gitTrace = []
      ∧ (boop cli env).outcome ≠ .ok := by
  refine boop_cases cli env
    (fun r => r.files = env.files ∧ r.gitTrace = [] ∧ r.outcome ≠ .ok)
    ?_ ⟨rfl, rfl, fun h => Outcome.noConfusion h⟩
    ⟨rfl, rfl, fun h => Outcome.noConfusion h⟩
  intro v _
  refine boopTagCheck_cases cli env v
    (fun r => r.files = env.files ∧ r.gitTrace = [] ∧ r.outcome ≠ .ok)
    ?_ ⟨rfl, rfl, fun h => Outcome.noConfusion h⟩
    ⟨rfl, rfl, fun h => Outcome.noConfusion h⟩
  simp [boopStage2_decline cli env v hf hc]

/-- C9, witness: a declined run over a matching `Cargo.toml` with commit,
tag and push all requested. -/
theorem C9_wit :
    (boop ⟨.auto, true, true, true, false⟩
        ⟨[("Cargo.toml", "version = \"1.0.0\"".data)], true, none, false,
          true, true, true, true, true⟩).files
      = [("Cargo.toml", "version = \"1.0.0\"".data)]
      ∧ (boop ⟨.auto, true, true, true, false⟩
          ⟨[("Cargo.toml", "version = \"1.0.0\"".data)], true, none, false,
            true, true, true, true, true⟩).gitTrace = []
      ∧ (boop ⟨.auto, true, true, true, false⟩
          ⟨[("Cargo.toml", "version = \"1.0.0\"".data)], true, none, false,
            true, true, true, true, true⟩).outcome ≠ .ok :=
  C9_decline ⟨.auto, true, true, true, false⟩
    ⟨[("Cargo.toml", "version = \"1.0.0\"".data)], true, none, false, true,
      true, true, true, true⟩ rfl rfl

/-! ### Claim C10 -/

/-- C10, counterexample: the claim states that a previous tag whose
stripped value is non-empty and not valid semver makes the program panic.
When the discovered version has a pre-release label, short-circuit `&&`
evaluation skips the tag parse entirely: here the tag `vbad!` strips to
the invalid `bad!`, yet the run completes successfully. -/
theorem C10_cex :
    stripLeadV "vbad!".data ≠ []
      ∧ parseVersion (stripLeadV "vbad!".data) = none
      ∧ (boop ⟨.auto, false, false, false, true⟩
          ⟨[("Cargo.toml", "version = \"1.0.0-rc\"".data)], true,
            some "vbad!".data, true, true, true, true, true, true⟩).outcome
        = .ok := by
  decide

/-- C10 (amended): the program panics (rather than taking the
diagnostic-plus-`Err` path) when the textually-agreed version string fails
to parse as semver, and when a previous tag exists whose stripped value is
non-empty and fails to parse — the latter only when the discovered version
has no pre-release segment (short-circuit `&&` skips the tag parse
otherwise). -/
theorem C10_amended (cli : CliFlags) (env : Env) :
    (∀ v vs, env.gitClean = true → extractVersions env.files = v :: vs →
      allEqual (v :: vs) = true → parseVersion v = none →
      boop cli env = ⟨.panicked, env.files, []⟩)
      ∧ (∀ v lt, env.gitClean = true →
          findCurrentVersion env.files = .found v → env.lastTag = some lt →
          stripLeadV lt ≠ [] → v.pre = [] → parseVersion (stripLeadV lt) = none →
          boop cli env = ⟨.panicked, env.files, []⟩) := by
  constructor
  · intro v vs hclean hx hall hp
    have hfind : findCurrentVersion env.files = .panicked := by
      simp [findCurrentVersion, hx, hall, hp]
    simp [boop, hclean, hfind]
  · intro v lt hclean hfind hlt hst hpre hp
    simp [boop, hclean, hfind, boopTagCheck, hlt, hst, hpre, hp]

/-- C10, witness: both panic paths at concrete inputs — an unparsable
agreed version string `oops`, and an unparsable stripped tag `x!` with a
pre-release-free discovered version. -/
theorem C10_wit :
    boop ⟨.auto, false, false, false, true⟩
        ⟨[("Cargo.toml", "version = \"oops\"".data)], true, none, true, true,
          true, true, true, true⟩
      = ⟨.panicked, [("Cargo.toml", "version = \"oops\"".data)], []⟩
      ∧ boop ⟨.auto, false, false, false, true⟩
          ⟨[("Cargo.toml", "version = \"1.0.0\"".data)], true,
            some "vx!".data, true, true, true, true, true, true⟩
        = ⟨.panicked, [("Cargo.toml", "version = \"1.0.0\"".data)], []⟩ :=
  ⟨(C10_amended ⟨.auto, false, false, false, true⟩
      ⟨[("Cargo.toml", "version = \"oops\"".data)], true, none, true, true,
        true, true, true, true⟩).1 "oops".data [] rfl (by decide) (by decide)
      (by decide),
    (C10_amended ⟨.auto, false, false, false, true⟩
      ⟨[("Cargo.toml", "version = \"1.0.0\"".data)], true, some "vx!".data,
        true, true, true, true, true, true⟩).2 ⟨1, 0, 0, [], []⟩ "vx!".data
      rfl (by decide) rfl (by decide) (by decide) (by decide)⟩

theorem drop_len_cons_app (ft : List Char) : ∀ (f0 : Char) (r : List Char),
    (f0 :: (ft ++ r)).drop ft.length = ft.getLastD f0 :: r := by
  induction ft with
  | nil => intro f0 r; rfl
  | cons c cs ih =>
    intro f0 r
    rw [List.getLastD_cons]
    exact ih c r

/-! ### Claim C8 -/

/-- C8: the loose pattern never matches the version text as a proper
substring of a longer word-character run: a match is impossible when the
preceding character is a word character (first part) or when the following
character is a word character (second part, for a version text ending in a
word character); in particular `1.0.0` matches neither inside `11.0.0`
nor inside `1.0.00`. -/
theorem C8_boundary (f0 : Char) (ft s : List Char) (j : Nat) :
    (isWordChar f0 = true → j ≠ 0 → wordAt s (j - 1) = true →
        looseMatchAtPos (f0 :: ft) s j = false)
      ∧ (isWordChar (ft.getLastD f0) = true →
          wordAt s (j + (f0 :: ft).length) = true →
          looseMatchAtPos (f0 :: ft) s j = false)
      ∧ hasLooseMatch "1.0.0".data "11.0.0".data = false
      ∧ hasLooseMatch "1.0.0".data "1.0.00".data = false := by
  refine ⟨?_, ?_, by decide, by decide⟩
  · intro hw hj hprev
    cases hlp : litPre (f0 :: ft) (s.drop j) with
    | none => simp [looseMatchAtPos, hlp]
    | some r =>
      have hds : s.drop j = (f0 :: ft) ++ r := litPre_some _ _ _ hlp
      have hwj : wordAt s j = true := by
        unfold wordAt
        rw [hds]
        simp [hw]
      have hpw : prevWordAt s j = true := by
        unfold prevWordAt
        simp [hj, hprev]
      simp [looseMatchAtPos, hwj, hpw]
  · intro hl hnext
    cases hlp : litPre (f0 :: ft) (s.drop j) with
    | none => simp [looseMatchAtPos, hlp]
    | some r =>
      have hds : s.drop j = (f0 :: ft) ++ r := litPre_some _ _ _ hlp
      have hdd : s.drop (j + ft.length) = ft.getLastD f0 :: r := by
        rw [← List.drop_drop, hds, List.cons_append]
        exact drop_len_cons_app ft f0 r
      have hmid' : wordAt s (j + ft.length) = true := by
        unfold wordAt
        rw [hdd]
        simpa using hl
      have hnext' : wordAt s (j + (ft.length + 1)) = true := by
        have hlen : j + (f0 :: ft).length = j + (ft.length + 1) := by
          simp [List.length_cons]
        rw [← hlen]
        exact hnext
      simp [looseMatchAtPos, hmid', hnext']

/-- C8, witness: the general boundary facts applied to the spec's two
examples — position 1 of `11.0.0` (word character on the left) and
position 0 of `1.0.00` (word character on the right). -/
theorem C8_wit :
    ((isWordChar '1' = true ∧ (1 : Nat) ≠ 0 ∧ wordAt "11.0.0".data 0 = true)
        ∧ looseMatchAtPos "1.0.0".data "11.0.0".data 1 = false)
      ∧ ((isWordChar (".0.0".data.getLastD '1') = true
            ∧ wordAt "1.0.00".data (0 + "1.0.0".data.length) = true)
          ∧ looseMatchAtPos "1.0.0".data "1.0.00".data 0 = false) :=
  ⟨⟨⟨by decide, by decide, by decide⟩,
      (C8_boundary '1' ".0.0".data "11.0.0".data 1).1 (by decide) (by decide)
        (by decide)⟩,
    ⟨⟨by decide, by decide⟩,
      (C8_boundary '1' ".0.0".data "1.0.00".data 0).2.1 (by decide)
        (by decide)⟩⟩

/-! ### Claim C7: structure of the precise `replace_all` sweep -/

theorem keySplit_some (s k r : List Char) (h : keySplit s = some (k, r)) :
    s = k ++ r ∧ (k = vcapChars ∨ k = vlowChars) := by
  unfold keySplit at h
  cases h1 : litPre vcapChars s with
  | some r1 =>
    rw [h1] at h
    simp only [Option.some.injEq, Prod.mk.injEq] at h
    obtain ⟨hk, hr⟩ := h
    subst hk; subst hr
    exact ⟨litPre_some _ _ _ h1, Or.inl rfl⟩
  | none =>
    rw [h1] at h
    cases h2 : litPre vlowChars s with
    | some r2 =>
      rw [h2] at h
      simp only [Option.some.injEq, Prod.mk.injEq] at h
      obtain ⟨hk, hr⟩ := h
      subst hk; subst hr
      exact ⟨litPre_some _ _ _ h2, Or.inr rfl⟩
    | none =>
      rw [h2] at h
      exact absurd h (by simp)

theorem spEq_some (s e r : List Char) (h : spEq s = some (e, r)) :
    s = e ++ r := by
  unfold spEq at h
  split at h
  · simp only [Option.some.injEq, Prod.mk.injEq] at h
    obtain ⟨he, hr⟩ := h
    subst he; subst hr
    rfl
  · simp only [Option.some.injEq, Prod.mk.injEq] at h
    obtain ⟨he, hr⟩ := h
    subst he; subst hr
    rfl
  · exact absurd h (by simp)

theorem spQuote_some (s q r : List Char) (h : spQuote s = some (q, r)) :
    s = q ++ r := by
  unfold spQuote at h
  split at h
  · simp only [Option.some.injEq, Prod.mk.injEq] at h
    obtain ⟨hq, hr⟩ := h
    subst hq; subst hr
    rfl
  · simp only [Option.some.injEq, Prod.mk.injEq] at h
    obtain ⟨hq, hr⟩ := h
    subst hq; subst hr
    rfl
  · exact absurd h (by simp)

theorem preciseMatchAt_some (fv s m r : List Char)
    (h : preciseMatchAt fv s = some (m, r)) : s = m ++ r ∧ m ≠ [] := by
  unfold preciseMatchAt at h
  cases hk : keySplit s with
  | none => rw [hk] at h; exact absurd h (by simp)
  | some kr =>
    obtain ⟨k, r1⟩ := kr
    rw [hk] at h
    dsimp only at h
    cases he : spEq r1 with
    | none => rw [he] at h; exact absurd h (by simp)
    | some er =>
      obtain ⟨e, r2⟩ := er
      rw [he] at h
      dsimp only at h
      cases hq : spQuote r2 with
      | none => rw [hq] at h; exact absurd h (by simp)
      | some qr =>
        obtain ⟨q, r3⟩ := qr
        rw [hq] at h
        dsimp only at h
        cases hf : litPre fv r3 with
        | none => rw [hf] at h; exact absurd h (by simp)
        | some r4 =>
          rw [hf] at h
          dsimp only at h
          split at h
          · next r5 =>
            simp only [Option.some.injEq, Prod.mk.injEq] at h
            obtain ⟨hm, hr⟩ := h
            have hsk := (keySplit_some s k r1 hk).1
            have hse := spEq_some r1 e r2 he
            have hsq := spQuote_some r2 q r3 hq
            have hsf := litPre_some fv r3 _ hf
            constructor
            · subst hm; subst hr
              rw [hsk, hse, hsq, hsf]
              simp [List.append_assoc]
            · subst hm
              simp
          · exact absurd h (by simp)

theorem preciseMatchAt_inst (i : Inst) (fv rest : List Char) :
    preciseMatchAt fv (instChars i fv ++ rest)
      = some (instChars i fv, rest) := by
  have h1 : instChars i fv ++ rest
      = keyOf i ++ (eqOf i ++ (qOf i ++ (fv ++ ('"' :: rest)))) := by
    simp [instChars, List.append_assoc]
  rw [h1]
  simp [preciseMatchAt, keySplit_inst, spEq_inst, spQuote_inst, litPre_self,
    instChars, List.append_assoc]

theorem preciseGo_nil (fv tgt : List Char) (k : Nat) :
    preciseGo fv tgt [] k = [] := by
  cases k <;> rfl

theorem preciseGo_skipStep (fv tgt : List Char) (c : Char) (cs : List Char)
    (k : Nat) : preciseGo fv tgt (c :: cs) (k + 1) = preciseGo fv tgt cs k :=
  rfl

theorem preciseGo_zero_none (fv tgt : List Char) (c : Char) (cs : List Char)
    (h : preciseMatchAt fv (c :: cs) = none) :
    preciseGo fv tgt (c :: cs) 0 = c :: preciseGo fv tgt cs 0 := by
  simp only [preciseGo, h]

theorem preciseGo_zero_some (fv tgt : List Char) (c : Char)
    (cs m r : List Char) (h : preciseMatchAt fv (c :: cs) = some (m, r)) :
    preciseGo fv tgt (c :: cs) 0
      = replaceList fv tgt m ++ preciseGo fv tgt cs (m.length - 1) := by
  simp only [preciseGo, h]

theorem preciseGo_skip_drop (fv tgt : List Char) :
    ∀ (l cs : List Char),
      preciseGo fv tgt (l ++ cs) l.length = preciseGo fv tgt cs 0 := by
  intro l
  induction l with
  | nil => intro cs; rfl
  | cons x l' ih =>
    intro cs
    simpa only [List.cons_append, List.length_cons, preciseGo_skipStep]
      using ih cs

theorem replGo_skipStep (p0 : Char) (pt tgt : List Char) (c : Char)
    (cs : List Char) (k : Nat) :
    replGo p0 pt tgt (c :: cs) (k + 1) = replGo p0 pt tgt cs k :=
  rfl

theorem replGo_skip_drop (p0 : Char) (pt tgt : List Char) :
    ∀ (l cs : List Char),
      replGo p0 pt tgt (l ++ cs) l.length = replGo p0 pt tgt cs 0 := by
  intro l
  induction l with
  | nil => intro cs; rfl
  | cons x l' ih =>
    intro cs
    simpa only [List.cons_append, List.length_cons, replGo_skipStep]
      using ih cs

theorem replGo_cons_ne (p0 : Char) (pt tgt : List Char) (c : Char)
    (cs : List Char) (hne : c ≠ p0) :
    replGo p0 pt tgt (c :: cs) 0 = c :: replGo p0 pt tgt cs 0 := by
  have hl : litPre (p0 :: pt) (c :: cs) = none := by
    simp [litPre, hne]
  simp [replGo, hl]

theorem replGo_match (p0 : Char) (pt tgt r : List Char) :
    replGo p0 pt tgt ((p0 :: pt) ++ r) 0 = tgt ++ replGo p0 pt tgt r 0 := by
  have hl : litPre (p0 :: pt) (p0 :: (pt ++ r)) = some r := by
    simpa [List.cons_append] using litPre_self (p0 :: pt) r
  simp [replGo, hl, replGo_skip_drop]

theorem ne_of_not_digit (c f0 : Char) (hc : c.isDigit = false)
    (hd : f0.isDigit = true) : c ≠ f0 := by
  intro h
  rw [h, hd] at hc
  exact Bool.noConfusion hc

theorem replGo_skip_nondigit (p0 : Char) (pt tgt : List Char)
    (hd : p0.isDigit = true) :
    ∀ (l : List Char), l.all (fun c => !c.isDigit) = true →
      ∀ s, replGo p0 pt tgt (l ++ s) 0 = l ++ replGo p0 pt tgt s 0 := by
  intro l
  induction l with
  | nil => intro _ s; rfl
  | cons c l' ih =>
    intro hl s
    simp only [List.all_cons, Bool.and_eq_true, Bool.not_eq_true'] at hl
    obtain ⟨hc, hl'⟩ := hl
    rw [List.cons_append,
      replGo_cons_ne p0 pt tgt c _ (ne_of_not_digit c p0 hc hd), ih hl' s]
    rfl

theorem pref_not_digit (i : Inst) :
    (keyOf i ++ eqOf i ++ qOf i).all (fun c => !c.isDigit) = true := by
  obtain ⟨caps, sp1, sp2⟩ := i
  cases caps <;> cases sp1 <;> cases sp2 <;> decide

theorem replaceList_inst (f0 : Char) (ft tgt : List Char) (i : Inst)
    (hd : f0.isDigit = true) :
    replaceList (f0 :: ft) tgt (instChars i (f0 :: ft)) = instChars i tgt := by
  show replGo f0 ft tgt (instChars i (f0 :: ft)) 0 = instChars i tgt
  have hshape : instChars i (f0 :: ft)
      = (keyOf i ++ eqOf i ++ qOf i) ++ ((f0 :: ft) ++ ['"']) := by
    simp [instChars, List.append_assoc]
  rw [hshape,
    replGo_skip_nondigit f0 ft tgt hd _ (pref_not_digit i) _,
    replGo_match]
  have hq : replGo f0 ft tgt ['"'] 0 = ['"'] := by
    rw [replGo_cons_ne f0 ft tgt '"' []
      (ne_of_not_digit '"' f0 (by decide) hd)]
    rfl
  rw [hq]
  simp [instChars, List.append_assoc]

theorem instChars_ne_nil (i : Inst) (val : List Char) :
    instChars i val ≠ [] := by
  obtain ⟨caps, sp1, sp2⟩ := i
  cases caps <;> simp [instChars, keyOf, vcapChars, vlowChars]

theorem preciseGo_inst_step (fv tgt : List Char) (i : Inst)
    (rest : List Char) :
    preciseGo fv tgt (instChars i fv ++ rest) 0
      = replaceList fv tgt (instChars i fv) ++ preciseGo fv tgt rest 0 := by
  have hm := preciseMatchAt_inst i fv rest
  cases hin : instChars i fv with
  | nil => exact absurd hin (instChars_ne_nil i fv)
  | cons c m' =>
    rw [hin] at hm
    rw [List.cons_append,
      preciseGo_zero_some fv tgt c (m' ++ rest) (c :: m') rest
        (by simpa [List.cons_append] using hm)]
    congr 1
    have hlen : (c :: m').length - 1 = m'.length := by simp
    rw [hlen, preciseGo_skip_drop]

theorem noMatchWithin_spec (fv t tail : List Char)
    (h : noMatchWithin fv t tail = true) :
    ∀ j, j < t.length → preciseMatchAt fv (t.drop j ++ tail) = none := by
  intro j hj
  have hall := List.all_eq_true.mp h j (List.mem_range.mpr hj)
  simpa [Option.isNone_iff_eq_none] using hall

theorem preciseGo_no_match (fv tgt : List Char) :
    ∀ (t X : List Char),
      (∀ j, j < t.length → preciseMatchAt fv (t.drop j ++ X) = none) →
      preciseGo fv tgt (t ++ X) 0 = t ++ preciseGo fv tgt X 0 := by
  intro t
  induction t with
  | nil => intro X _; rfl
  | cons c t' ih =>
    intro X h
    have h0 : preciseMatchAt fv (c :: (t' ++ X)) = none := by
      have := h 0 (by simp)
      simpa [List.cons_append] using this
    rw [List.cons_append, preciseGo_zero_none fv tgt c (t' ++ X) h0,
      ih X (fun j hj => by
        have := h (j + 1) (by simpa using Nat.succ_lt_succ hj)
        simpa using this)]
    rfl

theorem safeAll_cons_spec (fv t : List Char) (i : Inst)
    (rest : List (List Char × Inst)) (tfin : List Char)
    (h : safeAll fv ((t, i) :: rest) tfin = true) :
    noMatchWithin fv t (instChars i fv ++ buildContent fv rest tfin) = true
      ∧ safeAll fv rest tfin = true := by
  simpa [safeAll, Bool.and_eq_true] using h

/-- C7: for every file content decomposing into plain text around a list
of precise-pattern matches (the side condition `safeAll` states that no
further match starts inside the plain-text separators, so the listed
instances are exactly the matches), the `replace_all` sweep of the
precise pattern rewrites every matched span by replacing only the
captured version text with the target version — key, `=`, and quotes of
each span, and all text outside the matched spans, are byte-identical —
and it does so for all the matches in one pass.  The version text is a
rendered version, so it begins with a digit. -/
theorem C7_substitution (f0 : Char) (ft tgt : List Char)
    (hd : f0.isDigit = true) :
    ∀ (segs : List (List Char × Inst)) (tfin : List Char),
      safeAll (f0 :: ft) segs tfin = true →
      preciseReplaceAll (f0 :: ft) tgt (buildContent (f0 :: ft) segs tfin)
        = buildContent tgt segs tfin := by
  intro segs
  induction segs with
  | nil =>
    intro tfin hs
    simp only [safeAll] at hs
    have hb : ∀ j, j < tfin.length →
        preciseMatchAt (f0 :: ft) (tfin.drop j ++ ([] : List Char)) = none := by
      intro j hj
      have hall := List.all_eq_true.mp hs j (List.mem_range.mpr hj)
      simpa [Option.isNone_iff_eq_none] using hall
    have h1 := preciseGo_no_match (f0 :: ft) tgt tfin [] hb
    show preciseGo (f0 :: ft) tgt (buildContent (f0 :: ft) [] tfin) 0
      = buildContent tgt [] tfin
    simpa [buildContent, preciseGo_nil] using h1
  | cons ti rest ih =>
    obtain ⟨t, i⟩ := ti
    intro tfin hs
    obtain ⟨h1, h2⟩ := safeAll_cons_spec (f0 :: ft) t i rest tfin hs
    have hshape : buildContent (f0 :: ft) ((t, i) :: rest) tfin
        = t ++ (instChars i (f0 :: ft) ++ buildContent (f0 :: ft) rest tfin) := by
      simp [buildContent, List.append_assoc]
    show preciseGo (f0 :: ft) tgt (buildContent (f0 :: ft) ((t, i) :: rest) tfin) 0
      = buildContent tgt ((t, i) :: rest) tfin
    rw [hshape,
      preciseGo_no_match (f0 :: ft) tgt t _ (noMatchWithin_spec _ _ _ h1),
      preciseGo_inst_step (f0 :: ft) tgt i (buildContent (f0 :: ft) rest tfin),
      replaceList_inst f0 ft tgt i hd,
      show preciseGo (f0 :: ft) tgt (buildContent (f0 :: ft) rest tfin) 0
          = buildContent tgt rest tfin from ih tfin h2]
    simp [buildContent, List.append_assoc]

/-- C7, witness: a content with two precise matches (`version = "1.0.0"`
and `VERSION="1.0.0"`) around plain text; both are rewritten to `1.0.1`
and everything else is untouched. -/
theorem C7_wit :
    (('1' : Char).isDigit = true
        ∧ safeAll "1.0.0".data
            [("x ".data, ⟨false, true, true⟩), ("\n".data, ⟨true, false, false⟩)]
            "\n".data = true)
      ∧ preciseReplaceAll "1.0.0".data "1.0.1".data
          (buildContent "1.0.0".data
            [("x ".data, ⟨false, true, true⟩), ("\n".data, ⟨true, false, false⟩)]
            "\n".data)
        = buildContent "1.0.1".data
            [("x ".data, ⟨false, true, true⟩), ("\n".data, ⟨true, false, false⟩)]
            "\n".data :=
  ⟨⟨by decide, by decide⟩,
    C7_substitution '1' ".0.0".data "1.0.1".data (by decide)
      [("x ".data, ⟨false, true, true⟩), ("\n".data, ⟨true, false, false⟩)]
      "\n".data (by decide)⟩

end Booper
